import Mathlib

/-!
Shallow embedding of the real-function-optimization library: the
finite-difference differentiation engine (`fd_gradient.hpp`,
`fd_hessian.hpp`) and the iterative minimization family
(`gradient_descent.cpp`, `heavy_ball.cpp`, `nesterov.cpp`, `adam.cpp`).
Dense real vectors (`Eigen::VectorXd` / `std::vector<double>`) are
modelled as `List ℝ`, `double` arithmetic as exact real arithmetic.
Division by zero yields `0` in this model (total real division), where
IEEE doubles would produce `inf`/`NaN`; no claim below depends on that
corner.
-/

namespace RFO

/-- A dense real vector (`vector_type` / `std::vector<double>`). -/
abbrev Vec := List ℝ

/-- Elementwise addition (`operator+` in `vector_op.cpp`, Eigen `+`). -/
def vadd (x y : Vec) : Vec := List.zipWith (· + ·) x y

/-- Elementwise subtraction (`operator-` in `vector_op.cpp`, Eigen `-`). -/
def vsub (x y : Vec) : Vec := List.zipWith (· - ·) x y

/-- Scalar multiple (`operator*(scalar, x)` in `vector_op.cpp`, Eigen scalar `*`). -/
def smul (c : ℝ) (x : Vec) : Vec := x.map (fun t => c * t)

/-- Squared Euclidean norm (`norm_squared` / Eigen `squaredNorm`). -/
def sqnorm (x : Vec) : ℝ := (x.map (fun t => t * t)).sum

/-- Euclidean norm (`norm` in `vector_op.cpp` / Eigen `norm`). -/
noncomputable def norm (x : Vec) : ℝ := Real.sqrt (sqnorm x)

lemma norm_single (a : ℝ) : norm [a] = |a| := by
  simp [norm, sqnorm, Real.sqrt_mul_self_eq_abs]

lemma norm_nonneg (x : Vec) : 0 ≤ norm x := Real.sqrt_nonneg _

/-! ## Finite-difference engine (`fd_gradient.hpp`, `fd_hessian.hpp`) -/

/-- The stencil tag (`DifferenceType` namespace in `fd_gradient.hpp`). -/
inductive DifferenceType
  | Forward
  | Backward
  | Centered

/-- The `otherType` member typedef of each stencil struct in
`fd_gradient.hpp`: `Forward.otherType = Backward`,
`Backward.otherType = Forward`, `Centered.otherType = Centered`. -/
def otherType : DifferenceType → DifferenceType
  | .Forward => .Backward
  | .Backward => .Forward
  | .Centered => .Centered

/-- `gradient<F, T, DT>(f, h)` applied to a point `x`
(`fd_gradient.hpp`): coordinate `i` perturbs `x(i)` by `±h` and forms
the one-sided or centered difference quotient selected by `DT`. -/
noncomputable def fdGradient (DT : DifferenceType) (f : Vec → ℝ) (h : ℝ) (x : Vec) : Vec :=
  (List.range x.length).map (fun i =>
    let x_forward := x.set i (x.getD i 0 + h)
    let x_backward := x.set i (x.getD i 0 - h)
    match DT with
    | .Forward => (f x_forward - f x) / h
    | .Backward => (f x - f x_backward) / h
    | .Centered => (f x_forward - f x_backward) / (2 * h))

/-- `hessian<F, T, DT>(f, h)` applied to a point `x` (`fd_hessian.hpp`):
row `i` is the finite-difference gradient, with stencil `DT::otherType`,
of `grad_i(y) = gradient<F, T, DT>(f, h)(y)(i)`, evaluated at `x`. -/
noncomputable def fdHessian (DT : DifferenceType) (f : Vec → ℝ) (h : ℝ) (x : Vec) : List Vec :=
  (List.range x.length).map (fun i =>
    let grad_i := fun (y : Vec) => (fdGradient DT f h y).getD i 0
    fdGradient (otherType DT) grad_i h x)

/-- The spec's basis vector `eᵢ` in dimension `n`. -/
def eVec (n i : ℕ) : Vec := (List.range n).map (fun j => if j = i then 1 else 0)

lemma getD_map_range {β : Type} (F : ℕ → β) (n i : ℕ) (d : β) (h : i < n) :
    ((List.range n).map F).getD i d = F i := by
  have hl : i < ((List.range n).map F).length := by simpa using h
  rw [List.getD_eq_getElem _ _ hl]
  simp

lemma length_vadd (x y : Vec) : (vadd x y).length = min x.length y.length := by
  simp [vadd]

lemma length_vsub (x y : Vec) : (vsub x y).length = min x.length y.length := by
  simp [vsub]

lemma length_smul (c : ℝ) (x : Vec) : (smul c x).length = x.length := by
  simp [smul]

lemma set_add_eq_vadd (x : Vec) (i : ℕ) (h : ℝ) (hi : i < x.length) :
    x.set i (x.getD i 0 + h) = vadd x (smul h (eVec x.length i)) := by
  apply List.ext_getElem
  · simp [length_vadd, length_smul, eVec]
  · intro j h1 h2
    rw [List.length_set] at h1
    rw [List.getElem_set]
    simp only [vadd, smul, eVec, List.getElem_zipWith, List.getElem_map,
      List.getElem_range]
    by_cases hij : i = j
    · subst hij
      simp [List.getD_eq_getElem x 0 hi, List.getElem?_eq_getElem hi]
    · simp [hij, Ne.symm hij]

lemma set_sub_eq_vsub (x : Vec) (i : ℕ) (h : ℝ) (hi : i < x.length) :
    x.set i (x.getD i 0 - h) = vsub x (smul h (eVec x.length i)) := by
  apply List.ext_getElem
  · simp [length_vsub, length_smul, eVec]
  · intro j h1 h2
    rw [List.length_set] at h1
    rw [List.getElem_set]
    simp only [vsub, smul, eVec, List.getElem_zipWith, List.getElem_map,
      List.getElem_range]
    by_cases hij : i = j
    · subst hij
      simp [List.getD_eq_getElem x 0 hi, List.getElem?_eq_getElem hi]
    · simp [hij, Ne.symm hij]

/-- The spec's `opposite` stencil relation: Forward↔Backward,
Centered↔Centered. -/
def oppositeSpec : DifferenceType → DifferenceType
  | .Forward => .Backward
  | .Backward => .Forward
  | .Centered => .Centered

/-- C4: for every scalar `f`, step `h`, point `x` of dimension `n` and
coordinate `i < n`, the finite-difference gradient yields at coordinate
`i` exactly `(f(x+h·eᵢ) − f(x))/h` (Forward), `(f(x) − f(x−h·eᵢ))/h`
(Backward), `(f(x+h·eᵢ) − f(x−h·eᵢ))/(2h)` (Centered), where `x ± h·eᵢ`
perturbs coordinate `i` only. -/
theorem fdGradient_spec (DT : DifferenceType) (f : Vec → ℝ) (h : ℝ) (x : Vec)
    (i : ℕ) (hi : i < x.length) :
    (fdGradient DT f h x).getD i 0 =
      match DT with
      | .Forward => (f (vadd x (smul h (eVec x.length i))) - f x) / h
      | .Backward => (f x - f (vsub x (smul h (eVec x.length i)))) / h
      | .Centered => (f (vadd x (smul h (eVec x.length i)))
          - f (vsub x (smul h (eVec x.length i)))) / (2 * h) := by
  rw [fdGradient, getD_map_range _ _ _ _ hi]
  cases DT <;>
    simp only [set_add_eq_vadd x i h hi, set_sub_eq_vsub x i h hi]

/-- C4 witness: centered stencil on `f(v) = v₀²`, `x = (1, 2)`, `h = 1`,
coordinate `0`. -/
theorem fdGradient_spec_witness :
    (0 : ℕ) < ([1, 2] : Vec).length ∧
      (fdGradient DifferenceType.Centered
          (fun v => v.getD 0 0 * v.getD 0 0) 1 [1, 2]).getD 0 0 =
        ((fun (v : Vec) => v.getD 0 0 * v.getD 0 0)
            (vadd [1, 2] (smul 1 (eVec ([1, 2] : Vec).length 0)))
          - (fun (v : Vec) => v.getD 0 0 * v.getD 0 0)
            (vsub [1, 2] (smul 1 (eVec ([1, 2] : Vec).length 0)))) / (2 * 1) :=
  ⟨by norm_num,
    fdGradient_spec DifferenceType.Centered
      (fun v => v.getD 0 0 * v.getD 0 0) 1 [1, 2] 0 (by norm_num)⟩

/-- C5: row `i` of the finite-difference Hessian is the
finite-difference gradient, taken with the opposite stencil
(Forward↔Backward, Centered↔Centered), of
`grad_i(y) = gradient(f, h, DT)(y)[i]`, evaluated at `x`. -/
theorem fdHessian_spec (DT : DifferenceType) (f : Vec → ℝ) (h : ℝ) (x : Vec)
    (i : ℕ) (hi : i < x.length) :
    (fdHessian DT f h x).getD i [] =
      fdGradient (oppositeSpec DT)
        (fun y => (fdGradient DT f h y).getD i 0) h x := by
  rw [fdHessian, getD_map_range _ _ _ _ hi]
  cases DT <;> rfl

/-- C5 witness: centered stencil on `f(v) = v₀²`, `x = (1, 2)`, `h = 1`,
row `0`. -/
theorem fdHessian_spec_witness :
    (0 : ℕ) < ([1, 2] : Vec).length ∧
      (fdHessian DifferenceType.Centered
          (fun v => v.getD 0 0 * v.getD 0 0) 1 [1, 2]).getD 0 [] =
        fdGradient (oppositeSpec DifferenceType.Centered)
          (fun y => (fdGradient DifferenceType.Centered
            (fun v => v.getD 0 0 * v.getD 0 0) 1 y).getD 0 0) 1 [1, 2] :=
  ⟨by norm_num,
    fdHessian_spec DifferenceType.Centered
      (fun v => v.getD 0 0 * v.getD 0 0) 1 [1, 2] 0 (by norm_num)⟩



/-! ## Armijo backtracking (`gradient_descent.cpp`, armijo branch) -/

/-- The body of the Armijo backtracking loop
(`while (alpha > minimum_step && f(x) - f(x - alpha*grad) <
sigma*alpha*grad.squaredNorm()) alpha *= 0.5;`), run with an explicit
iteration budget. `armijoStep` below supplies a budget large enough
that the loop is guaranteed to have reached its exit condition, so the
budgeted loop coincides with the source's unbounded loop whenever
`minimum_step > 0`. -/
noncomputable def armijoGo (f : Vec → ℝ) (x g : Vec) (sigma minimum_step : ℝ) :
    ℕ → ℝ → ℝ
  | 0, alpha => alpha
  | Nat.succ n, alpha =>
    if minimum_step < alpha ∧
        f x - f (vsub x (smul alpha g)) < sigma * alpha * sqnorm g then
      armijoGo f x g sigma minimum_step n (alpha * 0.5)
    else alpha

/-- An iteration budget sufficient for the Armijo loop to reach its
exit condition: after this many halvings the step is below
`minimum_step`. -/
noncomputable def armijoFuel (minimum_step alpha0 : ℝ) : ℕ :=
  (⌈alpha0 / minimum_step⌉).toNat + 1

/-- The accepted Armijo step: the loop started from `alpha = alpha0`. -/
noncomputable def armijoStep (f : Vec → ℝ) (x g : Vec)
    (sigma minimum_step alpha0 : ℝ) : ℝ :=
  armijoGo f x g sigma minimum_step (armijoFuel minimum_step alpha0) alpha0

lemma armijoGo_exit (f : Vec → ℝ) (x g : Vec) (sigma minimum_step : ℝ)
    (hm : 0 < minimum_step) :
    ∀ (n : ℕ) (alpha : ℝ), alpha ≤ minimum_step * 2 ^ n →
      ¬(minimum_step < armijoGo f x g sigma minimum_step n alpha ∧
        f x - f (vsub x (smul (armijoGo f x g sigma minimum_step n alpha) g)) <
          sigma * armijoGo f x g sigma minimum_step n alpha * sqnorm g) := by
  intro n
  induction n with
  | zero =>
    intro alpha hle
    rw [pow_zero, mul_one] at hle
    simp only [armijoGo]
    rintro ⟨hlt, -⟩
    exact absurd hle (not_le.mpr hlt)
  | succ n ih =>
    intro alpha hle
    by_cases hc : minimum_step < alpha ∧
        f x - f (vsub x (smul alpha g)) < sigma * alpha * sqnorm g
    · rw [armijoGo, if_pos hc]
      apply ih
      rw [pow_succ] at hle
      linarith
    · rw [armijoGo, if_neg hc]
      exact hc

lemma armijoFuel_sufficient (minimum_step alpha0 : ℝ) (hm : 0 < minimum_step) :
    alpha0 ≤ minimum_step * 2 ^ armijoFuel minimum_step alpha0 := by
  by_cases h0 : alpha0 ≤ 0
  · have hp : (0:ℝ) < minimum_step * 2 ^ armijoFuel minimum_step alpha0 := by
      positivity
    linarith
  · push_neg at h0
    have h1 : alpha0 / minimum_step ≤ (⌈alpha0 / minimum_step⌉ : ℝ) :=
      Int.le_ceil _
    have h2 : ((⌈alpha0 / minimum_step⌉ : ℤ) : ℝ) ≤
        ((⌈alpha0 / minimum_step⌉.toNat : ℕ) : ℝ) := by
      exact_mod_cast Int.self_le_toNat _
    have hb : ⌈alpha0 / minimum_step⌉.toNat < 2 ^ armijoFuel minimum_step alpha0 := by
      calc ⌈alpha0 / minimum_step⌉.toNat
          < 2 ^ ⌈alpha0 / minimum_step⌉.toNat := Nat.lt_two_pow _
        _ ≤ 2 ^ armijoFuel minimum_step alpha0 :=
            Nat.pow_le_pow_right (by norm_num) (by simp [armijoFuel])
    have h3 : ((⌈alpha0 / minimum_step⌉.toNat : ℕ) : ℝ) ≤
        (2:ℝ) ^ armijoFuel minimum_step alpha0 := by
      exact_mod_cast hb.le
    have h4 : alpha0 / minimum_step ≤ (2:ℝ) ^ armijoFuel minimum_step alpha0 :=
      le_trans h1 (le_trans h2 h3)
    calc alpha0 = (alpha0 / minimum_step) * minimum_step := by field_simp
      _ ≤ (2:ℝ) ^ armijoFuel minimum_step alpha0 * minimum_step := by nlinarith
      _ = minimum_step * 2 ^ armijoFuel minimum_step alpha0 := by ring

/-- C1 (amended): when the Armijo backtracking loop exits with
`minimum_step > 0`, either the accepted step is `≤ minimum_step`, or it
satisfies the sufficient-decrease inequality
`f(x) − f(x − αg) ≥ σ·α·‖g‖²`. The unconditional sufficient-decrease
inequality of the original claim does not hold: the loop may exit by
the `alpha > minimum_step` guard alone. -/
theorem armijo_sufficient_decrease (f : Vec → ℝ) (x g : Vec)
    (sigma minimum_step alpha0 : ℝ) (hm : 0 < minimum_step) :
    armijoStep f x g sigma minimum_step alpha0 ≤ minimum_step ∨
      f x - f (vsub x (smul (armijoStep f x g sigma minimum_step alpha0) g)) ≥
        sigma * armijoStep f x g sigma minimum_step alpha0 * sqnorm g := by
  have h := armijoGo_exit f x g sigma minimum_step hm
    (armijoFuel minimum_step alpha0) alpha0
    (armijoFuel_sufficient minimum_step alpha0 hm)
  rw [not_and_or] at h
  rcases h with h | h
  · exact Or.inl (le_of_not_lt h)
  · exact Or.inr (le_of_not_lt h)

/-- The objective used in the C1 counterexample: `f(v) = −v₀`, which
decreases without bound along the descent direction, so the
sufficient-decrease test never passes and the loop exits by the
`minimum_step` guard. -/
def armijoCexF : Vec → ℝ := fun v => -(v.getD 0 0)

lemma armijoCex_eval : armijoStep armijoCexF [0] [1] (1/2) (1/2) 1 = 1/2 := by
  have hfuel : armijoFuel (1/2) 1 = 3 := by
    have hc : ⌈(1:ℝ) / (1/2)⌉ = 2 := by
      norm_num
    simp [armijoFuel, hc]
  rw [armijoStep, hfuel]
  have h1 : armijoGo armijoCexF [0] [1] (1/2) (1/2) 3 1 =
      armijoGo armijoCexF [0] [1] (1/2) (1/2) 2 (1 * 0.5) := by
    rw [armijoGo, if_pos]
    constructor
    · norm_num
    · norm_num [armijoCexF, vsub, smul, sqnorm]
  have h2 : armijoGo armijoCexF [0] [1] (1/2) (1/2) 2 (1 * 0.5) = 1 * 0.5 := by
    rw [armijoGo, if_neg]
    rintro ⟨hlt, -⟩
    norm_num at hlt
  rw [h1, h2]
  norm_num

/-- C1 counterexample: with `f(v) = −v₀`, `x = (0)`, `g = (1)`,
`σ = 1/2`, `minimum_step = 1/2 > 0`, `α₀ = 1`, the loop exits with
accepted step `α = 1/2`, and `f(x) − f(x − αg) = −1/2 < σ·α·‖g‖² = 1/8`:
the sufficient-decrease inequality fails at the moment the loop exits. -/
theorem armijo_claim_counterexample :
    (0:ℝ) < 1/2 ∧
    armijoStep armijoCexF [0] [1] (1/2) (1/2) 1 = 1/2 ∧
    ¬(armijoCexF [0] -
        armijoCexF (vsub [0]
          (smul (armijoStep armijoCexF [0] [1] (1/2) (1/2) 1) [1])) ≥
      (1/2) * armijoStep armijoCexF [0] [1] (1/2) (1/2) 1 * sqnorm [1]) := by
  refine ⟨by norm_num, armijoCex_eval, ?_⟩
  rw [armijoCex_eval]
  norm_num [armijoCexF, vsub, smul, sqnorm]

/-- C1 witness for the amended theorem, at the counterexample's inputs. -/
theorem armijo_sufficient_decrease_witness :
    (0:ℝ) < 1/2 ∧
      (armijoStep armijoCexF [0] [1] (1/2) (1/2) 1 ≤ 1/2 ∨
        armijoCexF [0] -
            armijoCexF (vsub [0]
              (smul (armijoStep armijoCexF [0] [1] (1/2) (1/2) 1) [1])) ≥
          (1/2) * armijoStep armijoCexF [0] [1] (1/2) (1/2) 1 * sqnorm [1]) :=
  ⟨by norm_num,
    armijo_sufficient_decrease armijoCexF [0] [1] (1/2) (1/2) 1 (by norm_num)⟩
/-! ## Optimizer family: shared loop shell and per-algorithm bodies -/

/-- The stopping condition that ended a run: which `break` fired
(residual or step criterion), or the iteration cap. The source reports
this on standard output; the returned point is unconditionally the
current iterate. -/
inductive Status
  | ConvergedResidual
  | ConvergedStep
  | MaxIterationsReached

/-- `GradientDescentParams` (`include/core/gradient_descent.hpp`). -/
structure GradientDescentParams where
  f : Vec → ℝ
  grad_f : Vec → Vec
  initial_condition : Vec
  tolerance_r : ℝ
  tolerance_s : ℝ
  initial_step : ℝ
  max_iterations : ℕ
  minimum_step : ℝ
  sigma : ℝ
  mu : ℝ

/-- `GradientDescentType` (`include/core/gradient_descent.hpp`). -/
inductive GradientDescentType
  | exponential
  | inverse
  | armijo

/-- `HeavyBallParams` (`include/core/heavy_ball.hpp`). -/
structure HeavyBallParams where
  f : Vec → ℝ
  grad_f : Vec → Vec
  initial_condition : Vec
  tolerance_r : ℝ
  tolerance_s : ℝ
  initial_step : ℝ
  max_iterations : ℕ
  minimum_step : ℝ
  mu : ℝ
  eta : ℝ

/-- `HeavyBallType` (`include/core/heavy_ball.hpp`). -/
inductive HeavyBallType
  | exponential
  | inverse
  | constant

/-- `HeavyBallStrategy` (`include/core/heavy_ball.hpp`). -/
inductive HeavyBallStrategy
  | dynamic
  | constant

/-- `NesterovParams` (`include/core/nesterov.hpp`). -/
structure NesterovParams where
  f : Vec → ℝ
  grad_f : Vec → Vec
  initial_condition : Vec
  tolerance_r : ℝ
  tolerance_s : ℝ
  initial_step : ℝ
  max_iterations : ℕ
  minimum_step : ℝ
  mu : ℝ
  eta : ℝ

/-- `NesterovType` (`include/core/nesterov.hpp`). -/
inductive NesterovType
  | exponential
  | inverse
  | constant

/-- `NesterovStrategy` (`include/core/nesterov.hpp`). -/
inductive NesterovStrategy
  | dynamic
  | constant

/-- `AdamParams` (`include/core/adam.hpp`). -/
structure AdamParams where
  f : Vec → ℝ
  grad_f : Vec → Vec
  initial_condition : Vec
  tolerance_r : ℝ
  tolerance_s : ℝ
  initial_step : ℝ
  max_iterations : ℕ
  minimum_step : ℝ
  mu : ℝ
  beta1 : ℝ
  beta2 : ℝ

/-- `AdamType` (`include/core/adam.hpp`). -/
inductive AdamType
  | dynamic
  | constant

/-- The shared `for (iteration = 0; iteration < max_iterations; ++iteration)`
shell of all four optimizers: run the loop body `step` (which reports an
early `break` as `some status`) on state `s` starting at iteration
index `k`, for at most `n` further iterations; falling off the end of
the loop is `MaxIterationsReached`. The returned point is `proj` of the
state at exit. -/
def runLoop {σ : Type} (step : σ → ℕ → σ × Option Status) (proj : σ → Vec) :
    ℕ → σ → ℕ → Vec × Status
  | 0, s, _ => (proj s, Status.MaxIterationsReached)
  | Nat.succ n, s, k =>
    match step s k with
    | (s1, some st) => (proj s1, st)
    | (s1, none) => runLoop step proj n s1 (k + 1)

/-- The state reached after `j` iterations of the loop body `step`,
ignoring early exits (used to phrase the no-early-exit hypothesis and
conclusion of C9). -/
def iterN {σ : Type} (step : σ → ℕ → σ × Option Status) : ℕ → σ → ℕ → σ
  | 0, s, _ => s
  | Nat.succ j, s, k => iterN step j (step s k).1 (k + 1)

/-- One iteration of `GradientDescent<T>::operator()()`
(`src/gradient_descent.cpp`). State: `(x, alpha)`. The gradient is
normalized for the exponential and inverse strategies only; the
exponential decay carries no `minimum_step` guard in this optimizer. -/
noncomputable def gdIterate (T : GradientDescentType)
    (p : GradientDescentParams) (s : Vec × ℝ) (iteration : ℕ) :
    (Vec × ℝ) × Option Status :=
  let x := s.1
  let alpha := s.2
  let grad := p.grad_f x
  let residual := norm grad
  if residual < p.tolerance_r then ((x, alpha), some Status.ConvergedResidual)
  else
    let grad1 :=
      match T with
      | .armijo => grad
      | _ => smul (1 / residual) grad
    let alpha1 :=
      match T with
      | .exponential => alpha * Real.exp (-p.mu)
      | .inverse => p.initial_step / (1 + p.mu * (iteration : ℝ) * (1 / residual))
      | .armijo => armijoStep p.f x grad1 p.sigma p.minimum_step p.initial_step
    let x1 := vsub x (smul alpha1 grad1)
    if norm (vsub x1 x) < p.tolerance_s then
      ((x1, alpha1), some Status.ConvergedStep)
    else ((x1, alpha1), none)

/-- `GradientDescent<T>::operator()()`: the full run. -/
noncomputable def gdRun (T : GradientDescentType)
    (p : GradientDescentParams) : Vec × Status :=
  runLoop (gdIterate T p) Prod.fst p.max_iterations
    (p.initial_condition, p.initial_step) 0

/-- One iteration of `HeavyBall<T, S>::operator()()`
(`src/heavy_ball.cpp`). State: `(x, d, alpha)` with `d` the velocity. -/
noncomputable def hbIterate (T : HeavyBallType) (S : HeavyBallStrategy)
    (p : HeavyBallParams) (s : Vec × Vec × ℝ) (iteration : ℕ) :
    (Vec × Vec × ℝ) × Option Status :=
  let x := s.1
  let d := s.2.1
  let alpha := s.2.2
  let grad := p.grad_f x
  let residual := norm grad
  if residual < p.tolerance_r then
    ((x, d, alpha), some Status.ConvergedResidual)
  else
    let grad1 := smul (1 / residual) grad
    let alpha1 :=
      if p.minimum_step < alpha then
        match T with
        | .exponential => alpha * Real.exp (-p.mu)
        | .inverse => p.initial_step / (1 + p.mu * (iteration : ℝ) * (1 / residual))
        | .constant => alpha
      else alpha
    let d1 :=
      match S with
      | .dynamic =>
        if alpha1 < 1 then vsub (smul (1 - alpha1) d) (smul alpha1 grad1)
        else vsub (smul p.eta d) (smul alpha1 grad1)
      | .constant => vsub (smul p.eta d) (smul alpha1 grad1)
    let x1 := vadd x d1
    if norm d1 < p.tolerance_s then ((x1, d1, alpha1), some Status.ConvergedStep)
    else ((x1, d1, alpha1), none)

/-- `HeavyBall<T, S>::operator()()`: the full run; the velocity starts
as the zero vector of the initial condition's dimension. -/
noncomputable def hbRun (T : HeavyBallType) (S : HeavyBallStrategy)
    (p : HeavyBallParams) : Vec × Status :=
  runLoop (hbIterate T S p) Prod.fst p.max_iterations
    (p.initial_condition, List.replicate p.initial_condition.length 0,
      p.initial_step) 0

/-- One iteration of `Nesterov<T, S>::operator()()` (`src/nesterov.cpp`).
State: `(x, y, alpha)` with `y` the momentum lookahead point. The
residual convergence test reads the gradient at `x`; the normalized
gradient at `y` drives the update `x ← y − α·ĝ(y)`. -/
noncomputable def nstIterate (T : NesterovType) (S : NesterovStrategy)
    (p : NesterovParams) (s : Vec × Vec × ℝ) (iteration : ℕ) :
    (Vec × Vec × ℝ) × Option Status :=
  let x := s.1
  let y := s.2.1
  let alpha := s.2.2
  let grad := p.grad_f x
  let grad_y := p.grad_f y
  let residual := norm grad
  if residual < p.tolerance_r then
    ((x, y, alpha), some Status.ConvergedResidual)
  else
    let grad_y1 := smul (1 / norm grad_y) grad_y
    let alpha1 :=
      if p.minimum_step < alpha then
        match T with
        | .exponential => alpha * Real.exp (-p.mu)
        | .inverse => p.initial_step / (1 + p.mu * (iteration : ℝ) * (1 / residual))
        | .constant => alpha
      else alpha
    let x1 := vsub y (smul alpha1 grad_y1)
    let y1 :=
      match S with
      | .dynamic =>
        if alpha1 < 1 then vadd x1 (smul (1 - alpha1) (vsub x1 x))
        else vadd x1 (smul p.eta (vsub x1 x))
      | .constant => vadd x1 (smul p.eta (vsub x1 x))
    if norm (vsub x1 x) < p.tolerance_s then
      ((x1, y1, alpha1), some Status.ConvergedStep)
    else ((x1, y1, alpha1), none)

/-- `Nesterov<T, S>::operator()()`: the full run; the lookahead point
starts at the initial condition. -/
noncomputable def nstRun (T : NesterovType) (S : NesterovStrategy)
    (p : NesterovParams) : Vec × Status :=
  runLoop (nstIterate T S p) Prod.fst p.max_iterations
    (p.initial_condition, p.initial_condition, p.initial_step) 0

/-- One iteration of `Adam<T>::operator()()` (`src/adam.cpp`). State:
`(x, m, v, beta1_iter, beta2_iter, alpha)` where `beta1_iter`,
`beta2_iter` hold `β₁ᵗ`, `β₂ᵗ` for the current iteration count `t`. -/
noncomputable def adamIterate (T : AdamType) (p : AdamParams)
    (s : Vec × Vec × Vec × ℝ × ℝ × ℝ) (iteration : ℕ) :
    (Vec × Vec × Vec × ℝ × ℝ × ℝ) × Option Status :=
  let x := s.1
  let m := s.2.1
  let v := s.2.2.1
  let beta1_iter := s.2.2.2.1
  let beta2_iter := s.2.2.2.2.1
  let alpha := s.2.2.2.2.2
  let grad := p.grad_f x
  let residual := norm grad
  if residual < p.tolerance_r then
    ((x, m, v, beta1_iter, beta2_iter, alpha), some Status.ConvergedResidual)
  else
    let m1 := vadd (smul p.beta1 m) (smul (1 - p.beta1) grad)
    let v1 := vadd (smul p.beta2 v)
      (smul (1 - p.beta2) (List.zipWith (· * ·) grad grad))
    let mhat := smul (1 / (1 - beta1_iter)) m1
    let vhat := smul (1 / (1 - beta2_iter)) v1
    let alpha1 :=
      if p.minimum_step < alpha then
        match T with
        | .dynamic => p.initial_step * Real.sqrt (1 - beta2_iter) / (1 - beta1_iter)
        | .constant => alpha
      else alpha
    let x1 := vsub x (smul alpha1
      (List.zipWith (· / ·) mhat (vhat.map (fun t => Real.sqrt t + 1e-8))))
    if norm (vsub x1 x) < p.tolerance_s then
      ((x1, m1, v1, beta1_iter * p.beta1, beta2_iter * p.beta2, alpha1),
        some Status.ConvergedStep)
    else ((x1, m1, v1, beta1_iter * p.beta1, beta2_iter * p.beta2, alpha1), none)

/-- `Adam<T>::operator()()`: the full run; moments start at zero and
`beta1_iter`, `beta2_iter` start at `β₁`, `β₂`. -/
noncomputable def adamRun (T : AdamType) (p : AdamParams) : Vec × Status :=
  runLoop (adamIterate T p) Prod.fst p.max_iterations
    (p.initial_condition, List.replicate p.initial_condition.length 0,
      List.replicate p.initial_condition.length 0, p.beta1, p.beta2,
      p.initial_step) 0

lemma gdIterate_residual (T : GradientDescentType) (p : GradientDescentParams)
    (s : Vec × ℝ) (k : ℕ) (h : norm (p.grad_f s.1) < p.tolerance_r) :
    gdIterate T p s k = (s, some Status.ConvergedResidual) := by
  obtain ⟨x, alpha⟩ := s
  simp [gdIterate, h]

lemma hbIterate_residual (T : HeavyBallType) (S : HeavyBallStrategy)
    (p : HeavyBallParams) (s : Vec × Vec × ℝ) (k : ℕ)
    (h : norm (p.grad_f s.1) < p.tolerance_r) :
    hbIterate T S p s k = (s, some Status.ConvergedResidual) := by
  obtain ⟨x, d, alpha⟩ := s
  simp [hbIterate, h]

lemma nstIterate_residual (T : NesterovType) (S : NesterovStrategy)
    (p : NesterovParams) (s : Vec × Vec × ℝ) (k : ℕ)
    (h : norm (p.grad_f s.1) < p.tolerance_r) :
    nstIterate T S p s k = (s, some Status.ConvergedResidual) := by
  obtain ⟨x, y, alpha⟩ := s
  simp [nstIterate, h]

lemma adamIterate_residual (T : AdamType) (p : AdamParams)
    (s : Vec × Vec × Vec × ℝ × ℝ × ℝ) (k : ℕ)
    (h : norm (p.grad_f s.1) < p.tolerance_r) :
    adamIterate T p s k = (s, some Status.ConvergedResidual) := by
  obtain ⟨x, m, v, b1, b2, alpha⟩ := s
  simp [adamIterate, h]

/-- C10: for every optimizer, if the gradient norm at the initial
condition is below `tolerance_r` (and the parameter invariant
`max_iterations ≥ 1` holds), the run stops in the first iteration with
`ConvergedResidual` and returns the initial condition unmodified. -/
theorem run_initial_convergence
    (Tg : GradientDescentType) (pg : GradientDescentParams)
    (Th : HeavyBallType) (Sh : HeavyBallStrategy) (ph : HeavyBallParams)
    (Tn : NesterovType) (Sn : NesterovStrategy) (pn : NesterovParams)
    (Ta : AdamType) (pa : AdamParams) :
    (1 ≤ pg.max_iterations →
      norm (pg.grad_f pg.initial_condition) < pg.tolerance_r →
      gdRun Tg pg = (pg.initial_condition, Status.ConvergedResidual)) ∧
    (1 ≤ ph.max_iterations →
      norm (ph.grad_f ph.initial_condition) < ph.tolerance_r →
      hbRun Th Sh ph = (ph.initial_condition, Status.ConvergedResidual)) ∧
    (1 ≤ pn.max_iterations →
      norm (pn.grad_f pn.initial_condition) < pn.tolerance_r →
      nstRun Tn Sn pn = (pn.initial_condition, Status.ConvergedResidual)) ∧
    (1 ≤ pa.max_iterations →
      norm (pa.grad_f pa.initial_condition) < pa.tolerance_r →
      adamRun Ta pa = (pa.initial_condition, Status.ConvergedResidual)) := by
  refine ⟨?_, ?_, ?_, ?_⟩ <;> intro h1 hr
  · obtain ⟨n, hn⟩ : ∃ n, pg.max_iterations = n + 1 :=
      ⟨pg.max_iterations - 1, by omega⟩
    rw [gdRun, hn, runLoop,
      gdIterate_residual Tg pg _ 0 (by simpa using hr)]
  · obtain ⟨n, hn⟩ : ∃ n, ph.max_iterations = n + 1 :=
      ⟨ph.max_iterations - 1, by omega⟩
    rw [hbRun, hn, runLoop,
      hbIterate_residual Th Sh ph _ 0 (by simpa using hr)]
  · obtain ⟨n, hn⟩ : ∃ n, pn.max_iterations = n + 1 :=
      ⟨pn.max_iterations - 1, by omega⟩
    rw [nstRun, hn, runLoop,
      nstIterate_residual Tn Sn pn _ 0 (by simpa using hr)]
  · obtain ⟨n, hn⟩ : ∃ n, pa.max_iterations = n + 1 :=
      ⟨pa.max_iterations - 1, by omega⟩
    rw [adamRun, hn, runLoop,
      adamIterate_residual Ta pa _ 0 (by simpa using hr)]

/-- Gradient-descent parameters with a gradient that already vanishes
at the initial condition (used by the C10 witness). -/
def pGD0 : GradientDescentParams :=
  ⟨fun _ => 0, fun _ => [0], [5], 1, 1, 1, 1, 1, 1, 1⟩

/-- Heavy-ball parameters with a vanishing gradient at the initial
condition (used by the C10 witness). -/
def pHB0 : HeavyBallParams :=
  ⟨fun _ => 0, fun _ => [0], [5], 1, 1, 1, 1, 1, 1, 1⟩

/-- Nesterov parameters with a vanishing gradient at the initial
condition (used by the C10 witness). -/
def pNST0 : NesterovParams :=
  ⟨fun _ => 0, fun _ => [0], [5], 1, 1, 1, 1, 1, 1, 1⟩

/-- Adam parameters with a vanishing gradient at the initial condition
(used by the C10 witness). -/
def pADAM0 : AdamParams :=
  ⟨fun _ => 0, fun _ => [0], [5], 1, 1, 1, 1, 1, 1, 1, 1⟩

/-- C10 witness: all four optimizers on a vanishing initial gradient. -/
theorem run_initial_convergence_witness :
    gdRun GradientDescentType.exponential pGD0 =
      (pGD0.initial_condition, Status.ConvergedResidual) ∧
    hbRun HeavyBallType.constant HeavyBallStrategy.constant pHB0 =
      (pHB0.initial_condition, Status.ConvergedResidual) ∧
    nstRun NesterovType.constant NesterovStrategy.constant pNST0 =
      (pNST0.initial_condition, Status.ConvergedResidual) ∧
    adamRun AdamType.constant pADAM0 =
      (pADAM0.initial_condition, Status.ConvergedResidual) := by
  have h := run_initial_convergence GradientDescentType.exponential pGD0
    HeavyBallType.constant HeavyBallStrategy.constant pHB0
    NesterovType.constant NesterovStrategy.constant pNST0
    AdamType.constant pADAM0
  refine ⟨h.1 ?_ ?_, h.2.1 ?_ ?_, h.2.2.1 ?_ ?_, h.2.2.2 ?_ ?_⟩
  · norm_num [pGD0]
  · show norm [0] < 1
    rw [norm_single]
    norm_num
  · norm_num [pHB0]
  · show norm [0] < 1
    rw [norm_single]
    norm_num
  · norm_num [pNST0]
  · show norm [0] < 1
    rw [norm_single]
    norm_num
  · norm_num [pADAM0]
  · show norm [0] < 1
    rw [norm_single]
    norm_num

/-- C3 (amended): in every Nesterov iteration the residual test
`‖g‖ < tolerance_r` is evaluated on the gradient taken at the current
iterate `x` — not at the momentum lookahead point `y` — and exactly when
it holds the iteration exits with `ConvergedResidual`, leaving the state
untouched. The normalized gradient at `y` is used only for the point
update. -/
theorem nesterov_residual_test (T : NesterovType) (S : NesterovStrategy)
    (p : NesterovParams) (s : Vec × Vec × ℝ) (k : ℕ) :
    ((nstIterate T S p s k).2 = some Status.ConvergedResidual ↔
      norm (p.grad_f s.1) < p.tolerance_r) ∧
    (norm (p.grad_f s.1) < p.tolerance_r →
      nstIterate T S p s k = (s, some Status.ConvergedResidual)) := by
  obtain ⟨x, y, alpha⟩ := s
  have hres := nstIterate_residual T S p (x, y, alpha) k
  by_cases h : norm (p.grad_f x) < p.tolerance_r
  · refine ⟨⟨fun _ => h, fun _ => ?_⟩, fun _ => hres h⟩
    rw [hres h]
  · have hne : (nstIterate T S p (x, y, alpha) k).2 ≠
        some Status.ConvergedResidual := by
      simp only [nstIterate]
      rw [if_neg h]
      split_ifs <;> simp
    exact ⟨⟨fun hst => absurd hst hne, fun hcon => absurd hcon h⟩,
      fun hcon => absurd hcon h⟩

/-- C3 witness: a state with vanishing gradient at `x` makes the
iteration exit with `ConvergedResidual` and an unchanged state. -/
theorem nesterov_residual_test_witness :
    nstIterate NesterovType.constant NesterovStrategy.constant pNST0
      ([5], [5], 1) 0 = (([5], [5], 1), some Status.ConvergedResidual) :=
  (nesterov_residual_test NesterovType.constant NesterovStrategy.constant
    pNST0 ([5], [5], 1) 0).2 (by
      show norm [0] < 1
      rw [norm_single]
      norm_num)

/-- Nesterov parameters for the C3 counterexample: gradient
`∇f(v) = v − 1` (of `f(v) = (v−1)²/2`), started at `x = 2`, with
`eta = 2` so that after one iteration the lookahead point `y = −1`
carries a large gradient while the iterate `x = 1` is stationary. -/
def pNSTc : NesterovParams :=
  ⟨fun _ => 0, fun v => [v.getD 0 0 - 1], [2], 1, 1, 1, 5, 1, 1, 2⟩

/-- C3 counterexample: running Nesterov (constant step, constant
momentum) from `x = y = 2`, the first iteration produces the state
`x = 1, y = −1`; the second iteration reports `ConvergedResidual`
because `‖∇f(x)‖ = 0 < tolerance_r`, even though the gradient at the
lookahead point `y = −1` has norm `2 ≥ tolerance_r`: the residual test
is not evaluated at the lookahead point. -/
theorem nesterov_residual_counterexample :
    nstIterate NesterovType.constant NesterovStrategy.constant pNSTc
      ([2], [2], 1) 0 = (([1], [-1], 1), none) ∧
    nstIterate NesterovType.constant NesterovStrategy.constant pNSTc
      ([1], [-1], 1) 1 = (([1], [-1], 1), some Status.ConvergedResidual) ∧
    ¬(norm (pNSTc.grad_f [-1]) < pNSTc.tolerance_r) := by
  refine ⟨?_, ?_, ?_⟩
  · norm_num [nstIterate, pNSTc, List.getD, norm_single, smul, vsub, vadd]
  · norm_num [nstIterate, pNSTc, List.getD, norm_single, smul, vsub, vadd]
  · norm_num [pNSTc, List.getD, norm_single]

/-- C2 (amended): with the exponential step-size tag, HeavyBall and
Nesterov apply the decay `α ← α·exp(−μ)` only while `α > minimum_step`
and leave `α` unchanged once `α ≤ minimum_step`; GradientDescent,
however, applies the exponential decay on every iteration that passes
the residual check, with no `minimum_step` guard. -/
theorem exp_decay_minimum_step_guard
    (ph : HeavyBallParams) (Sh : HeavyBallStrategy) (sh : Vec × Vec × ℝ)
    (pn : NesterovParams) (Sn : NesterovStrategy) (sn : Vec × Vec × ℝ)
    (pg : GradientDescentParams) (sg : Vec × ℝ) (k : ℕ) :
    (sh.2.2 ≤ ph.minimum_step →
      (hbIterate HeavyBallType.exponential Sh ph sh k).1.2.2 = sh.2.2) ∧
    (ph.minimum_step < sh.2.2 → ¬(norm (ph.grad_f sh.1) < ph.tolerance_r) →
      (hbIterate HeavyBallType.exponential Sh ph sh k).1.2.2 =
        sh.2.2 * Real.exp (-ph.mu)) ∧
    (sn.2.2 ≤ pn.minimum_step →
      (nstIterate NesterovType.exponential Sn pn sn k).1.2.2 = sn.2.2) ∧
    (pn.minimum_step < sn.2.2 → ¬(norm (pn.grad_f sn.1) < pn.tolerance_r) →
      (nstIterate NesterovType.exponential Sn pn sn k).1.2.2 =
        sn.2.2 * Real.exp (-pn.mu)) ∧
    (¬(norm (pg.grad_f sg.1) < pg.tolerance_r) →
      (gdIterate GradientDescentType.exponential pg sg k).1.2 =
        sg.2 * Real.exp (-pg.mu)) := by
  obtain ⟨xh, dh, ah⟩ := sh
  obtain ⟨xn, yn, an⟩ := sn
  obtain ⟨xg, ag⟩ := sg
  refine ⟨?_, ?_, ?_, ?_, ?_⟩
  · intro hle
    simp only [hbIterate, if_neg (not_lt.mpr hle)]
    split_ifs <;> rfl
  · intro hgt hres
    simp only [hbIterate, if_neg hres, if_pos hgt]
    split_ifs <;> rfl
  · intro hle
    simp only [nstIterate, if_neg (not_lt.mpr hle)]
    split_ifs <;> rfl
  · intro hgt hres
    simp only [nstIterate, if_neg hres, if_pos hgt]
    split_ifs <;> rfl
  · intro hres
    simp only [gdIterate, if_neg hres]
    split_ifs <;> rfl

/-- Gradient-descent parameters for the C2 counterexample:
`minimum_step = 1`, `μ = log 2`, constant gradient `(1)`. -/
noncomputable def pGDc : GradientDescentParams :=
  ⟨fun _ => 0, fun _ => [1], [0], 1, 1, 1, 5, 1, 1, Real.log 2⟩

/-- C2 counterexample: in GradientDescent (exponential tag) with
`α = 1 ≤ minimum_step = 1`, the iteration still decays the step size to
`α·exp(−log 2) = 1/2 ≠ α`: the decay is not guarded by
`α > minimum_step` in this optimizer. -/
theorem exp_decay_guard_counterexample :
    (1:ℝ) ≤ pGDc.minimum_step ∧
    (gdIterate GradientDescentType.exponential pGDc ([0], 1) 0).1.2 = 1/2 ∧
    (1:ℝ)/2 ≠ (1:ℝ) := by
  refine ⟨by norm_num [pGDc], ?_, by norm_num⟩
  norm_num [gdIterate, pGDc, norm_single, smul, vsub, Real.exp_neg,
    Real.exp_log]
  split_ifs <;> rfl

/-- Heavy-ball parameters for the C2 witness (`minimum_step = 1`,
`μ = log 2`, constant gradient `(1)`). -/
noncomputable def pHBc : HeavyBallParams :=
  ⟨fun _ => 0, fun _ => [1], [0], 1, 1, 1, 5, 1, Real.log 2, 1⟩

/-- Nesterov parameters for the C2 witness (`minimum_step = 1`,
`μ = log 2`, constant gradient `(1)`). -/
noncomputable def pNSTe : NesterovParams :=
  ⟨fun _ => 0, fun _ => [1], [0], 1, 1, 1, 5, 1, Real.log 2, 1⟩

/-- C2 witness: HeavyBall and Nesterov keep `α = 1 ≤ minimum_step`
unchanged and decay `α = 2 > minimum_step`; GradientDescent decays
unconditionally. -/
theorem exp_decay_minimum_step_guard_witness :
    (hbIterate HeavyBallType.exponential HeavyBallStrategy.constant pHBc
      ([0], [0], 1) 0).1.2.2 = 1 ∧
    (hbIterate HeavyBallType.exponential HeavyBallStrategy.constant pHBc
      ([0], [0], 2) 0).1.2.2 = 2 * Real.exp (-pHBc.mu) ∧
    (nstIterate NesterovType.exponential NesterovStrategy.constant pNSTe
      ([0], [0], 1) 0).1.2.2 = 1 ∧
    (nstIterate NesterovType.exponential NesterovStrategy.constant pNSTe
      ([0], [0], 2) 0).1.2.2 = 2 * Real.exp (-pNSTe.mu) ∧
    (gdIterate GradientDescentType.exponential pGDc ([0], 1) 0).1.2 =
      1 * Real.exp (-pGDc.mu) := by
  have hresh : ¬(norm (pHBc.grad_f ([0] : Vec)) < pHBc.tolerance_r) := by
    show ¬(norm [1] < 1)
    rw [norm_single]
    norm_num
  have hresn : ¬(norm (pNSTe.grad_f ([0] : Vec)) < pNSTe.tolerance_r) := by
    show ¬(norm [1] < 1)
    rw [norm_single]
    norm_num
  have hresg : ¬(norm (pGDc.grad_f ([0] : Vec)) < pGDc.tolerance_r) := by
    show ¬(norm [1] < 1)
    rw [norm_single]
    norm_num
  refine ⟨?_, ?_, ?_, ?_, ?_⟩
  · exact (exp_decay_minimum_step_guard pHBc HeavyBallStrategy.constant
      ([0], [0], 1) pNSTe NesterovStrategy.constant ([0], [0], 1) pGDc
      ([0], 1) 0).1 (by norm_num [pHBc])
  · exact (exp_decay_minimum_step_guard pHBc HeavyBallStrategy.constant
      ([0], [0], 2) pNSTe NesterovStrategy.constant ([0], [0], 1) pGDc
      ([0], 1) 0).2.1 (by norm_num [pHBc]) hresh
  · exact (exp_decay_minimum_step_guard pHBc HeavyBallStrategy.constant
      ([0], [0], 1) pNSTe NesterovStrategy.constant ([0], [0], 1) pGDc
      ([0], 1) 0).2.2.1 (by norm_num [pNSTe])
  · exact (exp_decay_minimum_step_guard pHBc HeavyBallStrategy.constant
      ([0], [0], 1) pNSTe NesterovStrategy.constant ([0], [0], 2) pGDc
      ([0], 1) 0).2.2.2.1 (by norm_num [pNSTe]) hresn
  · exact (exp_decay_minimum_step_guard pHBc HeavyBallStrategy.constant
      ([0], [0], 1) pNSTe NesterovStrategy.constant ([0], [0], 1) pGDc
      ([0], 1) 0).2.2.2.2 hresg

/-- The momentum coefficient of the spec: `(1−α)` under the dynamic
strategy when `α < 1`, else the memory parameter `η` (and always `η`
under the constant strategy). -/
noncomputable def momentumCoefSpec (S : HeavyBallStrategy)
    (p : HeavyBallParams) (alpha : ℝ) : ℝ :=
  match S with
  | .dynamic => if alpha < 1 then 1 - alpha else p.eta
  | .constant => p.eta

/-- C7: every HeavyBall iteration that passes the residual check updates
the velocity to `d ← c·d − α·ĝ` with `ĝ` the gradient divided by its
norm and `c` the spec coefficient (at the post-decay step size `α`),
then sets `x ← x + d`; the step-length convergence test fires exactly
when `‖d‖ < tolerance_s` for the updated velocity. -/
theorem heavy_ball_update (T : HeavyBallType) (S : HeavyBallStrategy)
    (p : HeavyBallParams) (x d : Vec) (alpha : ℝ) (k : ℕ)
    (hres : ¬(norm (p.grad_f x) < p.tolerance_r)) :
    (hbIterate T S p (x, d, alpha) k).1.2.1 =
      vsub (smul (momentumCoefSpec S p
          ((hbIterate T S p (x, d, alpha) k).1.2.2)) d)
        (smul ((hbIterate T S p (x, d, alpha) k).1.2.2)
          (smul (1 / norm (p.grad_f x)) (p.grad_f x))) ∧
    (hbIterate T S p (x, d, alpha) k).1.1 =
      vadd x ((hbIterate T S p (x, d, alpha) k).1.2.1) ∧
    ((hbIterate T S p (x, d, alpha) k).2 = some Status.ConvergedStep ↔
      norm ((hbIterate T S p (x, d, alpha) k).1.2.1) < p.tolerance_s) := by
  simp only [hbIterate, if_neg hres, momentumCoefSpec]
  cases S <;> split_ifs <;> simp_all

/-- C7 witness: a concrete HeavyBall iteration (exponential decay,
constant momentum strategy). -/
theorem heavy_ball_update_witness :
    (hbIterate HeavyBallType.exponential HeavyBallStrategy.constant pHBc
        ([0], [0], 1) 0).1.2.1 =
      vsub (smul (momentumCoefSpec HeavyBallStrategy.constant pHBc
          ((hbIterate HeavyBallType.exponential HeavyBallStrategy.constant
            pHBc ([0], [0], 1) 0).1.2.2)) [0])
        (smul ((hbIterate HeavyBallType.exponential HeavyBallStrategy.constant
            pHBc ([0], [0], 1) 0).1.2.2)
          (smul (1 / norm (pHBc.grad_f [0])) (pHBc.grad_f [0]))) ∧
    (hbIterate HeavyBallType.exponential HeavyBallStrategy.constant pHBc
        ([0], [0], 1) 0).1.1 =
      vadd [0] ((hbIterate HeavyBallType.exponential
        HeavyBallStrategy.constant pHBc ([0], [0], 1) 0).1.2.1) ∧
    ((hbIterate HeavyBallType.exponential HeavyBallStrategy.constant pHBc
        ([0], [0], 1) 0).2 = some Status.ConvergedStep ↔
      norm ((hbIterate HeavyBallType.exponential HeavyBallStrategy.constant
        pHBc ([0], [0], 1) 0).1.2.1) < pHBc.tolerance_s) :=
  heavy_ball_update HeavyBallType.exponential HeavyBallStrategy.constant
    pHBc [0] [0] 1 0 (by
      show ¬(norm [1] < 1)
      rw [norm_single]
      norm_num)

/-- C8: in a GradientDescent iteration that passes the residual check,
the exponential and inverse strategies use the gradient divided by its
norm in the point update `x ← x − α·ĝ`, whereas the Armijo strategy
passes the raw gradient both to the backtracking search (whose
sufficient-decrease test uses it) and to the point update
`x ← x − α·g`. -/
theorem gd_normalization (p : GradientDescentParams) (x : Vec) (alpha : ℝ)
    (k : ℕ) (hres : ¬(norm (p.grad_f x) < p.tolerance_r)) :
    ((gdIterate GradientDescentType.exponential p (x, alpha) k).1.1 =
      vsub x (smul (alpha * Real.exp (-p.mu))
        (smul (1 / norm (p.grad_f x)) (p.grad_f x)))) ∧
    ((gdIterate GradientDescentType.inverse p (x, alpha) k).1.1 =
      vsub x (smul (p.initial_step /
          (1 + p.mu * (k : ℝ) * (1 / norm (p.grad_f x))))
        (smul (1 / norm (p.grad_f x)) (p.grad_f x)))) ∧
    ((gdIterate GradientDescentType.armijo p (x, alpha) k).1.1 =
      vsub x (smul (armijoStep p.f x (p.grad_f x) p.sigma p.minimum_step
        p.initial_step) (p.grad_f x))) ∧
    ((gdIterate GradientDescentType.armijo p (x, alpha) k).1.2 =
      armijoStep p.f x (p.grad_f x) p.sigma p.minimum_step p.initial_step) := by
  refine ⟨?_, ?_, ?_, ?_⟩ <;>
    (simp only [gdIterate, if_neg hres]
     split_ifs <;> rfl)

/-- C8 witness: a concrete GradientDescent iteration for each strategy. -/
theorem gd_normalization_witness :
    ((gdIterate GradientDescentType.exponential pGDc ([0], 1) 0).1.1 =
      vsub [0] (smul (1 * Real.exp (-pGDc.mu))
        (smul (1 / norm (pGDc.grad_f [0])) (pGDc.grad_f [0])))) ∧
    ((gdIterate GradientDescentType.inverse pGDc ([0], 1) 0).1.1 =
      vsub [0] (smul (pGDc.initial_step /
          (1 + pGDc.mu * ((0 : ℕ) : ℝ) * (1 / norm (pGDc.grad_f [0]))))
        (smul (1 / norm (pGDc.grad_f [0])) (pGDc.grad_f [0])))) ∧
    ((gdIterate GradientDescentType.armijo pGDc ([0], 1) 0).1.1 =
      vsub [0] (smul (armijoStep pGDc.f [0] (pGDc.grad_f [0]) pGDc.sigma
        pGDc.minimum_step pGDc.initial_step) (pGDc.grad_f [0]))) ∧
    ((gdIterate GradientDescentType.armijo pGDc ([0], 1) 0).1.2 =
      armijoStep pGDc.f [0] (pGDc.grad_f [0]) pGDc.sigma pGDc.minimum_step
        pGDc.initial_step) :=
  gd_normalization pGDc [0] 1 0 (by
    show ¬(norm [1] < 1)
    rw [norm_single]
    norm_num)

/-- C6: an Adam iteration at iteration count `t = k+1 ≥ 1` (so the
stored `beta1_iter`, `beta2_iter` are `β₁ᵗ`, `β₂ᵗ`) that passes the
residual check performs exactly the spec update: `m ← β₁m + (1−β₁)g`,
`v ← β₂v + (1−β₂)g²` elementwise, bias-corrected `m̂ = m/(1−β₁ᵗ)`,
`v̂ = v/(1−β₂ᵗ)`, and `x ← x − α·m̂/(√v̂ + ε)` with `ε = 1e-8`; under
the dynamic tag the rate `α₀·√(1−β₂ᵗ)/(1−β₁ᵗ)` is recomputed only
while `α > minimum_step`, and the stored powers advance to `β^(t+1)`. -/
theorem adam_update (T : AdamType) (p : AdamParams) (x m v : Vec)
    (alpha : ℝ) (k : ℕ) (hres : ¬(norm (p.grad_f x) < p.tolerance_r)) :
    adamIterate T p (x, m, v, p.beta1 ^ (k + 1), p.beta2 ^ (k + 1), alpha) k =
      (let g := p.grad_f x
       let m1 := vadd (smul p.beta1 m) (smul (1 - p.beta1) g)
       let v1 := vadd (smul p.beta2 v)
         (smul (1 - p.beta2) (List.zipWith (· * ·) g g))
       let mhat := smul (1 / (1 - p.beta1 ^ (k + 1))) m1
       let vhat := smul (1 / (1 - p.beta2 ^ (k + 1))) v1
       let alpha1 :=
         if p.minimum_step < alpha then
           match T with
           | AdamType.dynamic => p.initial_step *
               Real.sqrt (1 - p.beta2 ^ (k + 1)) / (1 - p.beta1 ^ (k + 1))
           | AdamType.constant => alpha
         else alpha
       let x1 := vsub x (smul alpha1 (List.zipWith (· / ·) mhat
         (vhat.map (fun t => Real.sqrt t + 1e-8))))
       ((x1, m1, v1, p.beta1 ^ (k + 2), p.beta2 ^ (k + 2), alpha1),
         if norm (vsub x1 x) < p.tolerance_s then some Status.ConvergedStep
         else none)) := by
  simp only [adamIterate, if_neg hres]
  split_ifs <;> simp [pow_succ]

/-- Adam parameters used by the C6 witness. -/
noncomputable def pADAMc : AdamParams :=
  ⟨fun _ => 0, fun _ => [1], [0], 1, 1, 1, 5, 1, 1, 1/2, 1/2⟩

/-- C6 witness: a concrete Adam iteration at `t = 1` with `β₁ = β₂ = 1/2`. -/
theorem adam_update_witness :
    adamIterate AdamType.dynamic pADAMc
        ([0], [0], [0], pADAMc.beta1 ^ (0 + 1), pADAMc.beta2 ^ (0 + 1), 1) 0 =
      (let g := pADAMc.grad_f [0]
       let m1 := vadd (smul pADAMc.beta1 [0]) (smul (1 - pADAMc.beta1) g)
       let v1 := vadd (smul pADAMc.beta2 [0])
         (smul (1 - pADAMc.beta2) (List.zipWith (· * ·) g g))
       let mhat := smul (1 / (1 - pADAMc.beta1 ^ (0 + 1))) m1
       let vhat := smul (1 / (1 - pADAMc.beta2 ^ (0 + 1))) v1
       let alpha1 :=
         if pADAMc.minimum_step < (1:ℝ) then
           match AdamType.dynamic with
           | AdamType.dynamic => pADAMc.initial_step *
               Real.sqrt (1 - pADAMc.beta2 ^ (0 + 1)) /
                 (1 - pADAMc.beta1 ^ (0 + 1))
           | AdamType.constant => (1:ℝ)
         else (1:ℝ)
       let x1 := vsub [0] (smul alpha1 (List.zipWith (· / ·) mhat
         (vhat.map (fun t => Real.sqrt t + 1e-8))))
       ((x1, m1, v1, pADAMc.beta1 ^ (0 + 2), pADAMc.beta2 ^ (0 + 2), alpha1),
         if norm (vsub x1 [0]) < pADAMc.tolerance_s then
           some Status.ConvergedStep
         else none)) :=
  adam_update AdamType.dynamic pADAMc [0] [0] [0] 1 0 (by
    show ¬(norm [1] < 1)
    rw [norm_single]
    norm_num)

lemma runLoop_no_exit {σ : Type} (step : σ → ℕ → σ × Option Status)
    (proj : σ → Vec) :
    ∀ (n : ℕ) (s : σ) (k : ℕ),
      (∀ j, j < n → (step (iterN step j s k) (k + j)).2 = none) →
      runLoop step proj n s k =
        (proj (iterN step n s k), Status.MaxIterationsReached) := by
  intro n
  induction n with
  | zero => intro s k h; rfl
  | succ n ih =>
    intro s k h
    rcases hsk : step s k with ⟨s1, st⟩
    have h0 : st = none := by
      have h00 := h 0 (Nat.succ_pos n)
      rw [Nat.add_zero] at h00
      simp only [iterN] at h00
      rw [hsk] at h00
      exact h00
    subst h0
    have hrec := ih s1 (k + 1) (fun j hj => by
      have hj1 := h (j + 1) (Nat.succ_lt_succ hj)
      simp only [iterN] at hj1
      rw [hsk] at hj1
      have hidx : k + (j + 1) = k + 1 + j := by omega
      rw [hidx] at hj1
      exact hj1)
    simp only [runLoop, iterN, hsk]
    exact hrec

/-- C9: for every optimizer, if no iteration reports an early exit
(neither the residual nor the step-length test fires), the loop runs
for exactly `max_iterations` iterations and the run still returns the
last computed iterate, with the non-convergence reported as the
`MaxIterationsReached` status — never as an error: the run functions
are total and always produce a point. -/
theorem run_max_iterations
    (Tg : GradientDescentType) (pg : GradientDescentParams)
    (Th : HeavyBallType) (Sh : HeavyBallStrategy) (ph : HeavyBallParams)
    (Tn : NesterovType) (Sn : NesterovStrategy) (pn : NesterovParams)
    (Ta : AdamType) (pa : AdamParams) :
    ((∀ j, j < pg.max_iterations →
        (gdIterate Tg pg (iterN (gdIterate Tg pg) j
          (pg.initial_condition, pg.initial_step) 0) j).2 = none) →
      gdRun Tg pg = ((iterN (gdIterate Tg pg) pg.max_iterations
        (pg.initial_condition, pg.initial_step) 0).1,
        Status.MaxIterationsReached)) ∧
    ((∀ j, j < ph.max_iterations →
        (hbIterate Th Sh ph (iterN (hbIterate Th Sh ph) j
          (ph.initial_condition,
            List.replicate ph.initial_condition.length 0,
            ph.initial_step) 0) j).2 = none) →
      hbRun Th Sh ph = ((iterN (hbIterate Th Sh ph) ph.max_iterations
        (ph.initial_condition, List.replicate ph.initial_condition.length 0,
          ph.initial_step) 0).1, Status.MaxIterationsReached)) ∧
    ((∀ j, j < pn.max_iterations →
        (nstIterate Tn Sn pn (iterN (nstIterate Tn Sn pn) j
          (pn.initial_condition, pn.initial_condition,
            pn.initial_step) 0) j).2 = none) →
      nstRun Tn Sn pn = ((iterN (nstIterate Tn Sn pn) pn.max_iterations
        (pn.initial_condition, pn.initial_condition, pn.initial_step) 0).1,
        Status.MaxIterationsReached)) ∧
    ((∀ j, j < pa.max_iterations →
        (adamIterate Ta pa (iterN (adamIterate Ta pa) j
          (pa.initial_condition,
            List.replicate pa.initial_condition.length 0,
            List.replicate pa.initial_condition.length 0,
            pa.beta1, pa.beta2, pa.initial_step) 0) j).2 = none) →
      adamRun Ta pa = ((iterN (adamIterate Ta pa) pa.max_iterations
        (pa.initial_condition, List.replicate pa.initial_condition.length 0,
          List.replicate pa.initial_condition.length 0, pa.beta1, pa.beta2,
          pa.initial_step) 0).1, Status.MaxIterationsReached)) := by
  refine ⟨?_, ?_, ?_, ?_⟩ <;> intro h
  · rw [gdRun]
    exact runLoop_no_exit _ _ _ _ _ (fun j hj => by
      simpa using h j hj)
  · rw [hbRun]
    exact runLoop_no_exit _ _ _ _ _ (fun j hj => by
      simpa using h j hj)
  · rw [nstRun]
    exact runLoop_no_exit _ _ _ _ _ (fun j hj => by
      simpa using h j hj)
  · rw [adamRun]
    exact runLoop_no_exit _ _ _ _ _ (fun j hj => by
      simpa using h j hj)

/-- Gradient-descent parameters that cannot converge: constant unit
gradient, `tolerance_s = 0`, one iteration (C9 witness). -/
def pGD9 : GradientDescentParams :=
  ⟨fun _ => 0, fun _ => [1], [0], 1, 0, 1, 1, 1, 1, 1⟩

/-- Heavy-ball parameters that cannot converge (C9 witness). -/
def pHB9 : HeavyBallParams :=
  ⟨fun _ => 0, fun _ => [1], [0], 1, 0, 1, 1, 1, 1, 1⟩

/-- Nesterov parameters that cannot converge (C9 witness). -/
def pNST9 : NesterovParams :=
  ⟨fun _ => 0, fun _ => [1], [0], 1, 0, 1, 1, 1, 1, 1⟩

/-- Adam parameters that cannot converge (C9 witness). -/
def pADAM9 : AdamParams :=
  ⟨fun _ => 0, fun _ => [1], [0], 1, 0, 1, 1, 1, 1, 1, 1⟩

/-- C9 witness: with `max_iterations = 1`, a unit constant gradient
(residual `1`, not below `tolerance_r = 1`) and `tolerance_s = 0`
(step test can never fire), each optimizer performs its single
iteration and returns `MaxIterationsReached`. -/
theorem run_max_iterations_witness :
    gdRun GradientDescentType.exponential pGD9 =
      ((iterN (gdIterate GradientDescentType.exponential pGD9)
        pGD9.max_iterations (pGD9.initial_condition, pGD9.initial_step) 0).1,
        Status.MaxIterationsReached) ∧
    hbRun HeavyBallType.constant HeavyBallStrategy.constant pHB9 =
      ((iterN (hbIterate HeavyBallType.constant HeavyBallStrategy.constant
          pHB9) pHB9.max_iterations
        (pHB9.initial_condition, List.replicate pHB9.initial_condition.length 0,
          pHB9.initial_step) 0).1, Status.MaxIterationsReached) ∧
    nstRun NesterovType.constant NesterovStrategy.constant pNST9 =
      ((iterN (nstIterate NesterovType.constant NesterovStrategy.constant
          pNST9) pNST9.max_iterations
        (pNST9.initial_condition, pNST9.initial_condition,
          pNST9.initial_step) 0).1, Status.MaxIterationsReached) ∧
    adamRun AdamType.constant pADAM9 =
      ((iterN (adamIterate AdamType.constant pADAM9) pADAM9.max_iterations
        (pADAM9.initial_condition,
          List.replicate pADAM9.initial_condition.length 0,
          List.replicate pADAM9.initial_condition.length 0, pADAM9.beta1,
          pADAM9.beta2, pADAM9.initial_step) 0).1,
        Status.MaxIterationsReached) := by
  have hmax := run_max_iterations GradientDescentType.exponential pGD9
    HeavyBallType.constant HeavyBallStrategy.constant pHB9
    NesterovType.constant NesterovStrategy.constant pNST9
    AdamType.constant pADAM9
  have hres1 : ¬(norm [(1:ℝ)] < 1) := by
    rw [norm_single]
    norm_num
  refine ⟨hmax.1 ?_, hmax.2.1 ?_, hmax.2.2.1 ?_, hmax.2.2.2 ?_⟩
  · intro j hj
    have hj0 : j = 0 := by
      have : pGD9.max_iterations = 1 := rfl
      omega
    subst hj0
    simp only [iterN, gdIterate]
    have hr : ¬(norm (pGD9.grad_f pGD9.initial_condition) < pGD9.tolerance_r) := hres1
    rw [if_neg hr]
    have hs : ∀ z : Vec, ¬(norm z < pGD9.tolerance_s) := fun z =>
      not_lt.mpr (norm_nonneg z)
    rw [if_neg (hs _)]
  · intro j hj
    have hj0 : j = 0 := by
      have : pHB9.max_iterations = 1 := rfl
      omega
    subst hj0
    simp only [iterN, hbIterate]
    have hr : ¬(norm (pHB9.grad_f pHB9.initial_condition) < pHB9.tolerance_r) := hres1
    rw [if_neg hr]
    have hs : ∀ z : Vec, ¬(norm z < pHB9.tolerance_s) := fun z =>
      not_lt.mpr (norm_nonneg z)
    rw [if_neg (hs _)]
  · intro j hj
    have hj0 : j = 0 := by
      have : pNST9.max_iterations = 1 := rfl
      omega
    subst hj0
    simp only [iterN, nstIterate]
    have hr : ¬(norm (pNST9.grad_f pNST9.initial_condition) < pNST9.tolerance_r) := hres1
    rw [if_neg hr]
    have hs : ∀ z : Vec, ¬(norm z < pNST9.tolerance_s) := fun z =>
      not_lt.mpr (norm_nonneg z)
    rw [if_neg (hs _)]
  · intro j hj
    have hj0 : j = 0 := by
      have : pADAM9.max_iterations = 1 := rfl
      omega
    subst hj0
    simp only [iterN, adamIterate]
    have hr : ¬(norm (pADAM9.grad_f pADAM9.initial_condition) < pADAM9.tolerance_r) := hres1
    rw [if_neg hr]
    have hs : ∀ z : Vec, ¬(norm z < pADAM9.tolerance_s) := fun z =>
      not_lt.mpr (norm_nonneg z)
    rw [if_neg (hs _)]

end RFO
